import Mathlib

/-!
Shallow embedding of the `timerit` microbenchmarking harness
(`timerit/core.py` and `timerit/relative.py`).

Modelling conventions:
* Python floats are modelled as exact rationals (`ℚ`); the only irrational
  operation, `math.sqrt` in `Timerit.std`, is modelled with `Real.sqrt`.
* The monotonic clock (`time.perf_counter` / a user-supplied counter callable)
  is modelled as a deterministic call-counting state: `ClockState.fn n` is the
  value returned by the `n`-th call to the counter.  Caller work between reads
  shows up as the difference between consecutive clock values.
* Console narration (`verbose` printing) is not modelled; it does not affect
  any recorded state.
* The garbage collector is modelled as a single boolean (`true` = enabled)
  threaded through the run.
-/

/-- `Timer` from `core.py`: `_raw_tstart`, `_raw_elapsed` (both initialized to
the sentinel `-1`), and `_to_seconds` (the tick→seconds factor chosen from the
`counter` argument: `1e-9` for `perf_counter_ns`, `1` for `perf_counter` or a
user-supplied callable). -/
structure Timer where
  raw_tstart : ℚ
  raw_elapsed : ℚ
  to_seconds : ℚ
deriving DecidableEq

/-- `Timer.__init__`: both raw fields start at the sentinel `-1`. -/
def Timer.init (to_seconds : ℚ) : Timer :=
  { raw_tstart := -1, raw_elapsed := -1, to_seconds := to_seconds }

/-- `Timer.elapsed` property: `_raw_elapsed * _to_seconds`. -/
def Timer.elapsed (t : Timer) : ℚ := t.raw_elapsed * t.to_seconds

/-- `Timer.tstart` property: `_raw_tstart * _to_seconds`. -/
def Timer.tstart (t : Timer) : ℚ := t.raw_tstart * t.to_seconds

/-- The deterministic clock: `fn n` is the value produced by the `n`-th
counter call, `idx` the number of calls made so far. -/
structure ClockState where
  fn : ℕ → ℚ
  idx : ℕ

/-- One call to the counter. -/
def ClockState.read (c : ClockState) : ℚ × ClockState :=
  (c.fn c.idx, { fn := c.fn, idx := c.idx + 1 })

/-- `Timer.tic` / `_raw_tic`: record the current counter value as the start. -/
def Timer.tic (t : Timer) (c : ClockState) : Timer × ClockState :=
  let (v, c1) := c.read
  ({ t with raw_tstart := v }, c1)

/-- `Timer.toc` / `_raw_toc`: record `counter() - _raw_tstart` and return
`self.elapsed` (seconds). -/
def Timer.toc (t : Timer) (c : ClockState) : ℚ × Timer × ClockState :=
  let (v, c1) := c.read
  let t1 := { t with raw_elapsed := v - t.raw_tstart }
  (t1.elapsed, t1, c1)

/-- `_SetGCState` from `core.py`: scoped gc enable/disable with restoration. -/
structure SetGCState where
  enable : Bool
  prev : Option Bool

/-- `_SetGCState.__init__`: `self.prev = None`. -/
def SetGCState.init (enable : Bool) : SetGCState :=
  { enable := enable, prev := none }

/-- `_SetGCState.__enter__`: save `gc.isenabled()` into `prev`, then set the
collector to `enable`.  Returns the updated manager and the new gc state. -/
def SetGCState.enter (s : SetGCState) (gc : Bool) : SetGCState × Bool :=
  ({ s with prev := some gc }, s.enable)

/-- `_SetGCState.__exit__`: `if self.prev: gc.enable() else: gc.disable()`.
A `prev` of `none` (exit without enter) is falsy in Python, hence `false`. -/
def SetGCState.exitRestore (s : SetGCState) : Bool :=
  match s.prev with
  | some b => b
  | none => false

/-- The `with _SetGCState(enable):` statement: enter, run the body (which may
end normally or with an exception, and may itself toggle the collector), then
always run `__exit__`; exceptions propagate (`__exit__` returns a falsy
value). -/
def withSetGCState {ε α : Type} (enable : Bool) (gc : Bool)
    (body : Bool → Except ε α × Bool) : Except ε α × Bool :=
  let s0 := SetGCState.init enable
  let (s1, gc1) := s0.enter gc
  let (r, _) := body gc1
  (r, s1.exitRestore)

/-- The only error the modelled core raises at run time: the
`AssertionError('incorrectly recorded times, ...')` at the end of
`Timerit.__iter__`. -/
inductive TimeritError where
  | assertionError
deriving DecidableEq

/-- `Timerit` state from `core.py` (reporting/verbosity configuration and the
`measures` dictionary are modelled separately, see `Measures`).
`total_time` and `n_loops` are `Option`-valued because `__init__` sets
`total_time = 0`, `n_loops = None`, while `reset` sets both to `None`. -/
structure Timerit where
  num : ℕ
  label : Option String
  bestof : ℕ
  times : List ℚ
  total_time : Option ℚ
  n_loops : Option ℕ
  bg_timer : Timer
  fg_timer : Timer
deriving DecidableEq

/-- `Timerit.__init__`.  The `disable_gc` parameter mirrors the source
signature: the source accepts it but never stores or reads it.  Both timers
are created here, once per session, and reused by every run; `to_seconds`
is the factor of the configured timer class (`1` for a counter callable in
seconds). -/
def Timerit.init (num : ℕ) (label : Option String) (bestof : ℕ)
    (disable_gc : Bool) (to_seconds : ℚ) : Timerit :=
  { num := num, label := label, bestof := bestof, times := [],
    total_time := some 0, n_loops := none,
    bg_timer := Timer.init to_seconds, fg_timer := Timer.init to_seconds }

/-- `Timerit.reset`: `if label: self.label = label` (Python truthiness: `None`
and the empty string leave the label alone); clear `times`, set `n_loops` and
`total_time` to `None`.  The `measures` argument is modelled with `Measures`
separately. -/
def Timerit.reset (ti : Timerit) (label : Option String) : Timerit :=
  { ti with
    label := match label with
      | some l => if l = "" then ti.label else some l
      | none => ti.label,
    times := [], n_loops := none, total_time := none }

/-- One iteration of the core timing loop in `Timerit.__iter__`:
`bg_timer.tic()`; yield `fg_timer` to the caller (who optionally runs
`with fg_timer:` — i.e. `fg_timer.tic()` … caller work … `fg_timer.toc()`);
`bg_time = bg_timer.toc()`; then
`block_time = fg_timer.elapsed if fg_timer.elapsed >= 0 else bg_time`;
append to `times`, add to `total_time`, increment `n_loops`. -/
def Timerit.iterOnce (ti : Timerit) (useFg : Bool) (c : ClockState) :
    Timerit × ClockState :=
  let (bg1, c1) := ti.bg_timer.tic c
  let (fg1, c2) :=
    if useFg then
      let (fga, ca) := ti.fg_timer.tic c1
      let (_, fgb, cb) := fga.toc ca
      (fgb, cb)
    else (ti.fg_timer, c1)
  let (bg_time, bg2, c3) := bg1.toc c2
  let block_time := if 0 ≤ fg1.elapsed then fg1.elapsed else bg_time
  ({ ti with
      times := ti.times ++ [block_time],
      total_time := ti.total_time.map (· + block_time),
      n_loops := ti.n_loops.map (· + 1),
      bg_timer := bg2, fg_timer := fg1 }, c3)

/-- `for _ in it.repeat(None, self.num):` — run `n` more iterations, the
current one being iteration `i`; `sched i` tells whether the caller uses the
yielded foreground timer as a scope in iteration `i`. -/
def Timerit.runLoop (sched : ℕ → Bool) :
    ℕ → ℕ → Timerit → ClockState → Timerit × ClockState
  | _, 0, ti, c => (ti, c)
  | i, n + 1, ti, c =>
    let (ti1, c1) := ti.iterOnce (sched i) c
    Timerit.runLoop sched (i + 1) n ti1 c1

/-- The state updates at the top of `Timerit.__iter__`:
`self.n_loops = 0; self.total_time = 0` (note: `times` is *not* cleared). -/
def Timerit.iterBegin (ti : Timerit) : Timerit :=
  { ti with n_loops := some 0, total_time := some 0 }

/-- Result of driving `Timerit.__iter__` to completion.  `gcDuring` is a ghost
observation: the collector state in effect while the timing loop ran. -/
structure RunResult where
  result : Except TimeritError Timerit
  clock : ClockState
  gcFinal : Bool
  gcDuring : Bool

/-- Driving `Timerit.__iter__` to completion: reset `n_loops`/`total_time`,
run the core loop under `with _SetGCState(enable=False):`, then check
`len(self.times) != self.num` and raise `AssertionError` on mismatch.
(The subsequent `_record_measurement` bookkeeping is modelled by `Measures`;
verbose printing is not modelled.) -/
def Timerit.runIter (ti : Timerit) (sched : ℕ → Bool) (c : ClockState)
    (gc : Bool) : RunResult :=
  let ti0 := ti.iterBegin
  let (r, gcOut) :=
    @withSetGCState TimeritError (Timerit × ClockState × Bool) false gc
      (fun g =>
        let (ti1, c1) := Timerit.runLoop sched 0 ti0.num ti0 c
        (Except.ok (ti1, c1, g), g))
  match r with
  | Except.error e =>
      -- unreachable: the loop body raises nothing
      { result := Except.error e, clock := c, gcFinal := gcOut, gcDuring := false }
  | Except.ok (ti1, c1, g) =>
      if ti1.times.length ≠ ti1.num then
        { result := Except.error TimeritError.assertionError, clock := c1,
          gcFinal := gcOut, gcDuring := g }
      else
        { result := Except.ok ti1, clock := c1, gcFinal := gcOut, gcDuring := g }

/-- Python's builtin `min` on a list (raises on `[]`; the `[]` case is
unreachable where it is used here). -/
def listMin : List ℚ → ℚ
  | [] => 0
  | x :: xs => xs.foldl min x

/-- `_chunks(seq, size)`:
`(seq[pos:pos + size] for pos in range(0, len(seq), size))`.
`range(0, len, size)` has `(len + size - 1) / size` elements `0, size, …`. -/
def _chunks (seq : List ℚ) (size : ℕ) : List (List ℚ) :=
  (List.range' 0 ((seq.length + size - 1) / size) size).map
    fun pos => (seq.drop pos).take size

/-- `Timerit.robust_times`: `list(map(min, _chunks(self.times, self.bestof)))`. -/
def Timerit.robust_times (ti : Timerit) : List ℚ :=
  (_chunks ti.times ti.bestof).map listMin

/-- `Timerit.min`: `min(self.times)` — over the raw samples. -/
def Timerit.min (ti : Timerit) : ℚ := listMin ti.times

/-- `Timerit.mean`: `sum(times) / len(times)` over `robust_times()`. -/
def Timerit.mean (ti : Timerit) : ℚ :=
  let times := ti.robust_times
  times.sum / (times.length : ℚ)

/-- `Timerit.std`:
`math.sqrt(sum((t - mean) ** 2 for t in times) / len(times))` with
`times = robust_times()` and `mean = sum(times) / len(times)`. -/
noncomputable def Timerit.std (ti : Timerit) : ℝ :=
  let times := ti.robust_times
  let mean : ℚ := times.sum / (times.length : ℚ)
  Real.sqrt
    (((times.map (fun t : ℚ => ((t : ℝ) - (mean : ℝ)) ^ 2)).sum)
      / (times.length : ℝ))

/-- Spec-side notion for comparison: the arithmetic mean of a sample list. -/
def arithMean (l : List ℚ) : ℚ := l.sum / (l.length : ℚ)

/-- Spec-side notion for comparison: the population variance (divide by `N`,
not `N - 1`) of a sample list about its arithmetic mean. -/
noncomputable def popVariance (l : List ℚ) : ℝ :=
  ((l.map (fun t : ℚ => ((t : ℝ) - (arithMean l : ℝ)) ^ 2)).sum) / (l.length : ℝ)

/-- `_trychar(char, fallback, asciimode)`: the fallback when `asciimode is
True`; otherwise the character itself (the embedded output stream encodes
every character, so the `sys.stdout.encoding` probe succeeds). -/
def _trychar (char fallback : String) (asciimode : Option Bool) : String :=
  if asciimode = some true then fallback else char

/-- The `units` ordered dictionary in `_choose_unit`:
key, display suffix, and magnitude. -/
def _unit_table (asciimode : Option Bool) : List (String × String × ℚ) :=
  [("s", "s", 1),
   ("ms", "ms", 1 / 1000),
   ("us", _trychar "µs" "us" asciimode, 1 / 1000000),
   ("ns", "ns", 1 / 1000000000)]

/-- The scan `for suffix, mag in units.values(): if value > mag: break` —
selects the first entry whose magnitude is strictly below `value`; if none
matches, the loop variables end up bound to the last entry. -/
def _scan_units (value : ℚ) : List (String × ℚ) → String × ℚ
  | [] => ("ns", 1 / 1000000000)
  | [p] => p
  | p :: q :: rest =>
      if p.2 < value then p else _scan_units value (q :: rest)

/-- `_choose_unit(value, unit, asciimode)`: forced lookup (a `KeyError`,
modelled as `none`, for an unknown key) or the descending scan. -/
def _choose_unit (value : ℚ) (unit : Option String) (asciimode : Option Bool) :
    Option (String × ℚ) :=
  match unit with
  | none => some (_scan_units value ((_unit_table asciimode).map (·.2)))
  | some u => ((_unit_table asciimode).find? (fun kv => kv.1 == u)).map (·.2)

/-- `Relative.percent_change(new, old)` from `relative.py`:
`(old - new) / old * 100`.  (Python raises `ZeroDivisionError` at
`old = 0`; every claim below assumes `old ≠ 0`.) -/
def Relative.percent_change (new old : ℚ) : ℚ :=
  (old - new) / old * 100

/-- `Relative.percent_decrease`: `assert new <= old` (modelled as `none` on
violation) then `percent_change`. -/
def Relative.percent_decrease (new old : ℚ) : Option ℚ :=
  if new ≤ old then some (Relative.percent_change new old) else none

/-- `Relative.percent_increase`: `assert new >= old` then
`-percent_change`. -/
def Relative.percent_increase (new old : ℚ) : Option ℚ :=
  if old ≤ new then some (-Relative.percent_change new old) else none

/-- `Relative.percent_smaller` delegates to `percent_decrease`. -/
def Relative.percent_smaller (new old : ℚ) : Option ℚ :=
  Relative.percent_decrease new old

/-- `Relative.percent_bigger` delegates to `percent_increase`. -/
def Relative.percent_bigger (new old : ℚ) : Option ℚ :=
  Relative.percent_increase new old

/-- `Relative.percent_slower` delegates to `percent_increase`. -/
def Relative.percent_slower (new old : ℚ) : Option ℚ :=
  Relative.percent_increase new old

/-- `Relative.percent_faster` delegates to `percent_decrease`. -/
def Relative.percent_faster (new old : ℚ) : Option ℚ :=
  Relative.percent_decrease new old

/-- Stable insertion into a value-sorted association list (helper for
modelling Python's stable `sorted(d.items(), key=lambda kv: kv[1])`). -/
def _insert_by_value (p : String × ℚ) :
    List (String × ℚ) → List (String × ℚ)
  | [] => [p]
  | q :: rest =>
      if p.2 ≤ q.2 then p :: q :: rest else q :: _insert_by_value p rest

/-- `sorted(d.items(), key=lambda kv: kv[1])`: stable ascending sort of an
association list by value. -/
def _sort_by_value : List (String × ℚ) → List (String × ℚ)
  | [] => []
  | p :: rest => _insert_by_value p (_sort_by_value rest)

/-- The `measures` dictionary: one label→value map per statistic key, the
keys written by `Timerit._record_measurement`
(`'mean'`, `'min'`, `'mean-std'`, `'mean+std'`). -/
structure Measures where
  mean : List (String × ℚ)
  min : List (String × ℚ)
  mean_sub_std : List (String × ℚ)
  mean_add_std : List (String × ℚ)

/-- `Timerit.rankings`: each statistic's map sorted ascending by value. -/
def Measures.rankings (m : Measures) : Measures :=
  { mean := _sort_by_value m.mean,
    min := _sort_by_value m.min,
    mean_sub_std := _sort_by_value m.mean_sub_std,
    mean_add_std := _sort_by_value m.mean_add_std }

/-- The loop body of `Timerit.summary`: iterate over the (descending) ranked
items keeping the previous item; `if prev_key:` (Python truthiness: the first
iteration's `None`, and an empty-string label, skip the line); the line
`'{} is {:0.2f}% faster than {}'` is modelled as the triple
`(key, pcnt, prev_key)`; the `assert` inside `percent_faster` surfaces as an
error. -/
def _summary_lines :
    Option (String × ℚ) → List (String × ℚ) →
    Except String (List (String × ℚ × String))
  | _, [] => Except.ok []
  | none, (k, v) :: rest => _summary_lines (some (k, v)) rest
  | some (pk, pv), (k, v) :: rest =>
      if pk = "" then _summary_lines (some (k, v)) rest
      else
        match Relative.percent_faster v pv with
        | none => Except.error "AssertionError: not a decrease"
        | some pcnt =>
            (_summary_lines (some (k, v)) rest).map
              (fun ls => (k, pcnt, pk) :: ls)

/-- `Timerit.summary(stat='mean')`.  The session's `measures` dictionary is
passed explicitly.  Faithful to the source:
`method_to_value = self.rankings['mean']` — the `stat` argument is accepted
but never consulted — then the reversed (descending) iteration producing one
comparison line per adjacent pair. -/
def Timerit.summary (m : Measures) (stat : String) :
    Except String (List (String × ℚ × String)) :=
  let method_to_value := (Measures.rankings m).mean
  _summary_lines none method_to_value.reverse

/-- Folding `min` never exceeds the initial accumulator. -/
theorem foldl_min_le_init (xs : List ℚ) : ∀ a : ℚ, xs.foldl min a ≤ a := by
  induction xs with
  | nil => intro a; simp
  | cons x xs ih =>
    intro a
    exact le_trans (ih (min a x)) (min_le_left a x)

/-- Folding `min` is below every list member. -/
theorem foldl_min_le_mem (xs : List ℚ) :
    ∀ (a x : ℚ), x ∈ xs → xs.foldl min a ≤ x := by
  induction xs with
  | nil => intro a x hx; cases hx
  | cons y ys ih =>
    intro a x hx
    rcases List.mem_cons.mp hx with rfl | hx
    · exact le_trans (foldl_min_le_init ys (min a x)) (min_le_right a x)
    · exact ih (min a y) x hx

/-- The fold of `min` is the accumulator or a member. -/
theorem foldl_min_mem (xs : List ℚ) :
    ∀ a : ℚ, xs.foldl min a = a ∨ xs.foldl min a ∈ xs := by
  induction xs with
  | nil => intro a; left; rfl
  | cons y ys ih =>
    intro a
    rcases ih (min a y) with h | h
    · rw [List.foldl_cons, h]
      rcases le_total a y with hay | hya
      · left; exact min_eq_left hay
      · right; rw [min_eq_right hya]; exact List.mem_cons_self y ys
    · right
      exact List.mem_cons_of_mem y (by rw [List.foldl_cons]; exact h)

/-- `listMin` is a lower bound for the list. -/
theorem listMin_le {l : List ℚ} {x : ℚ} (hx : x ∈ l) : listMin l ≤ x := by
  cases l with
  | nil => cases hx
  | cons y ys =>
    rcases List.mem_cons.mp hx with rfl | hx
    · exact foldl_min_le_init ys x
    · exact foldl_min_le_mem ys y x hx

/-- `listMin` of a nonempty list is one of its members. -/
theorem listMin_mem {l : List ℚ} (h : l ≠ []) : listMin l ∈ l := by
  cases l with
  | nil => exact absurd rfl h
  | cons y ys =>
    rcases foldl_min_mem ys y with h1 | h1
    · rw [listMin, h1]; exact List.mem_cons_self y ys
    · exact List.mem_cons_of_mem y h1

/-- `_chunks` of the empty list is empty. -/
theorem chunks_nil (K : ℕ) (hK : 0 < K) : _chunks [] K = [] := by
  simp [_chunks, Nat.div_eq_of_lt (Nat.sub_lt hK Nat.one_pos)]

/-- Shifting the start of a `range'` as a `map`. -/
theorem map_range'_shift {α : Type} (f : ℕ → α) (K : ℕ) :
    ∀ (n s : ℕ),
      (List.range' (s + K) n K).map f
        = (List.range' s n K).map fun p => f (p + K) := by
  intro n
  induction n with
  | zero => intro s; rfl
  | succ n ih =>
    intro s
    rw [List.range'_succ, List.range'_succ, List.map_cons, List.map_cons]
    exact congrArg _ (ih (s + K))

/-- The chunk count of a nonempty list splits off one chunk. -/
theorem chunk_count_succ (L K : ℕ) (hK : 0 < K) (hL : 0 < L) :
    (L + K - 1) / K = (L - K + K - 1) / K + 1 := by
  rcases le_or_lt K L with hKL | hLK
  · have h1 : L - K + K = L := Nat.sub_add_cancel hKL
    have h2 : L + K - 1 = (L - K + K - 1) + K := by omega
    rw [h2, Nat.add_div_right _ hK]
  · have h1 : L - K = 0 := by omega
    have h2 : (L + K - 1) / K = 1 := by
      apply Nat.div_eq_of_lt_le
      · omega
      · omega
    rw [h1, h2]
    simp [Nat.div_eq_of_lt (show K - 1 < K by omega)]

/-- Unfolding lemma: `_chunks` of a nonempty list is its `K`-prefix followed
by the chunks of the rest. -/
theorem chunks_cons (seq : List ℚ) (K : ℕ) (hK : 0 < K) (hne : seq ≠ []) :
    _chunks seq K = seq.take K :: _chunks (seq.drop K) K := by
  have hL : 0 < seq.length := List.length_pos.mpr hne
  rw [_chunks, _chunks, List.length_drop,
    chunk_count_succ seq.length K hK hL, List.range'_succ, List.map_cons]
  have h0 : (seq.drop 0).take K = seq.take K := by simp
  rw [h0]
  congr 1
  rw [map_range'_shift (fun pos => (seq.drop pos).take K) K
      ((seq.length - K + K - 1) / K) 0]
  apply List.map_congr_left
  intro p _
  rw [List.drop_drop, Nat.add_comm p K]

/-- The chunks of a list concatenate back to the list:
`_chunks` partitions its input into consecutive chunks. -/
theorem chunks_flatten (K : ℕ) (hK : 0 < K) :
    ∀ (n : ℕ) (seq : List ℚ), seq.length ≤ n → (_chunks seq K).flatten = seq := by
  intro n
  induction n with
  | zero =>
    intro seq h
    have hnil : seq = [] := List.eq_nil_of_length_eq_zero (Nat.le_zero.mp h)
    rw [hnil, chunks_nil K hK, List.flatten_nil]
  | succ n ih =>
    intro seq h
    rcases seq with _ | ⟨x, xs⟩
    · rw [chunks_nil K hK, List.flatten_nil]
    · have hlen : ((x :: xs).drop K).length ≤ n := by
        simp only [List.length_drop, List.length_cons]
        simp only [List.length_cons] at h
        omega
      rw [chunks_cons (x :: xs) K hK (by simp), List.flatten_cons,
        ih ((x :: xs).drop K) hlen]
      exact List.take_append_drop K (x :: xs)

/-- Every chunk produced by `_chunks` is nonempty. -/
theorem chunks_ne_nil (K : ℕ) (hK : 0 < K) :
    ∀ (n : ℕ) (seq : List ℚ), seq.length ≤ n →
      ∀ c ∈ _chunks seq K, c ≠ [] := by
  intro n
  induction n with
  | zero =>
    intro seq h c hc
    have hnil : seq = [] := List.eq_nil_of_length_eq_zero (Nat.le_zero.mp h)
    rw [hnil, chunks_nil K hK] at hc
    cases hc
  | succ n ih =>
    intro seq h c hc
    rcases seq with _ | ⟨x, xs⟩
    · rw [chunks_nil K hK] at hc; cases hc
    · have hlen : ((x :: xs).drop K).length ≤ n := by
        simp only [List.length_drop, List.length_cons]
        simp only [List.length_cons] at h
        omega
      rw [chunks_cons (x :: xs) K hK (by simp)] at hc
      rcases List.mem_cons.mp hc with rfl | hc
      · obtain ⟨k, rfl⟩ := Nat.exists_eq_succ_of_ne_zero (Nat.pos_iff_ne_zero.mp hK)
        simp [List.take_succ_cons]
      · exact ih ((x :: xs).drop K) hlen c hc

/-- The number of chunks. -/
theorem chunks_length (seq : List ℚ) (K : ℕ) :
    (_chunks seq K).length = (seq.length + K - 1) / K := by
  simp [_chunks]

/-- The rounding-up division identity: `(n + K - 1) / K` over `ℕ` is the
ceiling of the rational `n / K`. -/
theorem ceil_div_nat (n K : ℕ) (hK : 0 < K) :
    ⌈(n : ℚ) / (K : ℚ)⌉₊ = (n + K - 1) / K := by
  have hK0 : (0 : ℚ) < (K : ℚ) := by exact_mod_cast hK
  rcases Nat.eq_zero_or_pos n with rfl | hn
  · simp [Nat.div_eq_of_lt (show K - 1 < K by omega)]
  · obtain ⟨q', hq'⟩ : ∃ q', (n + K - 1) / K = q' + 1 := by
      have h1 : 1 ≤ (n + K - 1) / K := (Nat.le_div_iff_mul_le hK).mpr (by omega)
      exact ⟨(n + K - 1) / K - 1, by omega⟩
    have hmod := Nat.div_add_mod (n + K - 1) K
    have hr : (n + K - 1) % K < K := Nat.mod_lt _ hK
    rw [hq'] at hmod
    have hmul : K * (q' + 1) = K * q' + K := Nat.mul_succ K q'
    have hub : n ≤ K * (q' + 1) := by omega
    have hlb : K * q' < n := by omega
    rw [hq', Nat.ceil_eq_iff (by omega)]
    constructor
    · have hcast : ((K : ℚ) * (q' : ℚ)) < (n : ℚ) := by exact_mod_cast hlb
      simp only [Nat.add_sub_cancel]
      rw [lt_div_iff₀ hK0]
      calc ((q' : ℚ)) * K = K * q' := by ring
        _ < n := hcast
    · have hcast : ((n : ℚ)) ≤ (K : ℚ) * ((q' : ℚ) + 1) := by exact_mod_cast hub
      rw [div_le_iff₀ hK0]
      calc ((n : ℚ)) ≤ K * ((q' : ℚ) + 1) := hcast
        _ = ((q' : ℚ) + 1) * K := by ring
        _ = ((q' + 1 : ℕ) : ℚ) * K := by push_cast; ring

/-- Claim C3: after a completed run, `min()` is the minimum of the raw
sample list; `mean()` is the arithmetic mean of `robust_times()`; `std()` is
the population standard deviation (dividing by `N`) of `robust_times()`;
`robust_times()` maps `min` over the partition of the raw samples into
consecutive `bestof`-sized chunks (the last possibly shorter), so it has
`⌈N / bestof⌉` entries and each entry is `≤` every raw sample in its
chunk. -/
theorem timerit_statistics_spec (ti : Timerit) (hK : 0 < ti.bestof)
    (hne : ti.times ≠ []) :
    (Timerit.min ti ∈ ti.times ∧ ∀ x ∈ ti.times, Timerit.min ti ≤ x)
    ∧ Timerit.mean ti = arithMean ti.robust_times
    ∧ Timerit.std ti = Real.sqrt (popVariance ti.robust_times)
    ∧ ti.robust_times = (_chunks ti.times ti.bestof).map listMin
    ∧ (_chunks ti.times ti.bestof).flatten = ti.times
    ∧ ti.robust_times.length = ⌈(ti.times.length : ℚ) / (ti.bestof : ℚ)⌉₊
    ∧ ∀ c ∈ _chunks ti.times ti.bestof, ∀ x ∈ c, listMin c ≤ x := by
  refine ⟨⟨listMin_mem hne, fun x hx => listMin_le hx⟩, rfl, ?_, rfl, ?_, ?_, ?_⟩
  · simp only [Timerit.std, popVariance, arithMean, Timerit.robust_times]
  · exact chunks_flatten ti.bestof hK ti.times.length ti.times le_rfl
  · rw [Timerit.robust_times, List.length_map, chunks_length,
      ceil_div_nat ti.times.length ti.bestof hK]
  · intro c _ x hx
    exact listMin_le hx

/-- Claim C7: the scoped garbage-collector primitive restores the collector's
prior enabled/disabled state on every exit path: for any body — normal
completion, early break, or an exception surfacing as `Except.error`, and
even a body that itself toggles the collector — the state after
enter/body/exit equals the state before, and the body's outcome (including
a propagating exception) passes through unsuppressed. -/
theorem setGCState_restores_on_all_exit_paths {ε α : Type}
    (enable : Bool) (gc : Bool) (body : Bool → Except ε α × Bool) :
    (withSetGCState enable gc body).2 = gc
    ∧ (withSetGCState enable gc body).1 = (body enable).1 := by
  constructor
  · simp [withSetGCState, SetGCState.init, SetGCState.enter, SetGCState.exitRestore]
  · simp [withSetGCState, SetGCState.init, SetGCState.enter]

/-- Claim C9: with `old ≠ 0`, `percent_faster` coincides with
`percent_decrease`; it fails exactly when `new > old`; on success the
returned percentage `p` satisfies `old * (1 - p / 100) = new`; and the
increase-direction variants (`percent_increase`, `percent_slower`) fail
exactly when `new < old`. -/
theorem relative_percent_directional (new old : ℚ) (h : old ≠ 0) :
    Relative.percent_faster new old = Relative.percent_decrease new old
    ∧ (Relative.percent_faster new old = none ↔ old < new)
    ∧ (∀ p, Relative.percent_faster new old = some p →
        old * (1 - p / 100) = new)
    ∧ (Relative.percent_increase new old = none ↔ new < old)
    ∧ (Relative.percent_slower new old = none ↔ new < old) := by
  refine ⟨rfl, ?_, ?_, ?_, ?_⟩
  · by_cases hle : new ≤ old <;>
      simp [Relative.percent_faster, Relative.percent_decrease, hle, not_le,
        lt_of_not_le]
  · intro p hp
    by_cases hle : new ≤ old
    · simp only [Relative.percent_faster, Relative.percent_decrease, hle,
        if_true, Option.some.injEq] at hp
      rw [← hp, Relative.percent_change]
      field_simp
      ring
    · simp [Relative.percent_faster, Relative.percent_decrease, hle] at hp
  · by_cases hle : old ≤ new <;>
      simp [Relative.percent_increase, hle, not_le, lt_of_not_le]
  · by_cases hle : old ≤ new <;>
      simp [Relative.percent_slower, Relative.percent_increase, hle, not_le,
        lt_of_not_le]

/-- Witness for C9 at `new = 8`, `old = 10`: the directional checks and the
round-trip `10 * (1 - p / 100) = 8` hold there. -/
theorem relative_percent_directional_witness :
    (10 : ℚ) ≠ 0
    ∧ (Relative.percent_faster 8 10 = Relative.percent_decrease 8 10
      ∧ (Relative.percent_faster 8 10 = none ↔ (10 : ℚ) < 8)
      ∧ (∀ p, Relative.percent_faster 8 10 = some p →
          (10 : ℚ) * (1 - p / 100) = 8)
      ∧ (Relative.percent_increase 8 10 = none ↔ (8 : ℚ) < 10)
      ∧ (Relative.percent_slower 8 10 = none ↔ (8 : ℚ) < 10)) :=
  ⟨by norm_num, relative_percent_directional 8 10 (by norm_num)⟩

/-- Claim C5: forced units resolve to their fixed scales (`s`→1, `ms`→1e-3,
`us`→1e-6, `ns`→1e-9) and an unrecognized forced unit is an invalid-unit
error; without a forced unit the scan picks the first unit (descending order
`s`, `ms`, `us`, `ns`) whose scale is strictly below the value, falling back
to `ns`; in particular the four documented evaluation examples hold. -/
theorem choose_unit_spec :
    (∀ (v : ℚ) (a : Option Bool),
        _choose_unit v (some "s") a = some ("s", 1)
        ∧ _choose_unit v (some "ms") a = some ("ms", 1 / 1000)
        ∧ _choose_unit v (some "us") a = some (_trychar "µs" "us" a, 1 / 1000000)
        ∧ _choose_unit v (some "ns") a = some ("ns", 1 / 1000000000))
    ∧ (∀ (v : ℚ) (a : Option Bool) (u : String),
        u ∉ (["s", "ms", "us", "ns"] : List String) →
        _choose_unit v (some u) a = none)
    ∧ (∀ (v : ℚ) (a : Option Bool),
        _choose_unit v none a
          = some (if 1 < v then ("s", 1)
              else if 1 / 1000 < v then ("ms", 1 / 1000)
              else if 1 / 1000000 < v then (_trychar "µs" "us" a, 1 / 1000000)
              else ("ns", 1 / 1000000000)))
    ∧ _choose_unit (11 / 10) none none = some ("s", 1)
    ∧ _choose_unit (1 / 100) none none = some ("ms", 1 / 1000)
    ∧ _choose_unit (1 / 10000) none (some true) = some ("us", 1 / 1000000)
    ∧ _choose_unit (11 / 10) (some "ns") none = some ("ns", 1 / 1000000000) := by
  refine ⟨?_, ?_, ?_, ?_, ?_, ?_, ?_⟩
  · intro v a
    refine ⟨rfl, rfl, rfl, rfl⟩
  · intro v a u hu
    simp only [List.mem_cons, List.not_mem_nil, or_false, not_or] at hu
    obtain ⟨h1, h2, h3, h4⟩ := hu
    have e1 : (("s" : String) == u) = false := beq_eq_false_iff_ne.mpr (Ne.symm h1)
    have e2 : (("ms" : String) == u) = false := beq_eq_false_iff_ne.mpr (Ne.symm h2)
    have e3 : (("us" : String) == u) = false := beq_eq_false_iff_ne.mpr (Ne.symm h3)
    have e4 : (("ns" : String) == u) = false := beq_eq_false_iff_ne.mpr (Ne.symm h4)
    simp [_choose_unit, _unit_table, List.find?, e1, e2, e3, e4]
  · intro v a
    simp only [_choose_unit, _unit_table, List.map, _scan_units]
  · norm_num [_choose_unit, _unit_table, _scan_units, _trychar]
  · norm_num [_choose_unit, _unit_table, _scan_units, _trychar]
  · norm_num [_choose_unit, _unit_table, _scan_units, _trychar]
  · rfl

/-- Witness for C5: the invalid-unit clause at the concrete unit name
`"days"`. -/
theorem choose_unit_spec_witness :
    ("days" : String) ∉ (["s", "ms", "us", "ns"] : List String)
    ∧ _choose_unit 5 (some "days") none = none :=
  ⟨by decide, choose_unit_spec.2.1 5 none "days" (by decide)⟩

/-- Claim C8 (code divergence): `summary` accepts a `stat` argument but
always ranks by the `'mean'` statistic.  At a measure set where the mean
order is `a` before `b` but the min order is `b` before `a`, `summary`
called with `stat = "min"` still produces the mean-based line
`("a", 50, "b")`, not the min-based line `("b", 50, "a")`. -/
theorem summary_ignores_stat_argument :
    Timerit.summary
        { mean := [("a", 1), ("b", 2)], min := [("a", 2), ("b", 1)],
          mean_sub_std := [], mean_add_std := [] } "min"
      = Except.ok [("a", 50, "b")]
    ∧ _sort_by_value [("a", (2 : ℚ)), ("b", 1)] = [("b", 1), ("a", 2)]
    ∧ [("a", (50 : ℚ), "b")] ≠ [("b", 50, "a")] := by
  refine ⟨?_, ?_, by decide⟩
  · norm_num [Timerit.summary, Measures.rankings, _sort_by_value,
      _insert_by_value, _summary_lines, Relative.percent_faster,
      Relative.percent_decrease, Relative.percent_change]
    rw [if_neg (by decide)]
    rfl
  · norm_num [_sort_by_value, _insert_by_value]

/-- One loop iteration appends exactly one sample and leaves the
configuration fields alone. -/
theorem iterOnce_shape (ti : Timerit) (u : Bool) (c : ClockState) :
    (ti.iterOnce u c).1.num = ti.num
    ∧ (ti.iterOnce u c).1.bestof = ti.bestof
    ∧ (ti.iterOnce u c).1.label = ti.label
    ∧ (ti.iterOnce u c).1.times.length = ti.times.length + 1 := by
  cases u <;>
    simp [Timerit.iterOnce, Timer.tic, Timer.toc, ClockState.read, Timer.elapsed]

/-- Over `n` iterations the loop appends exactly `n` samples and leaves the
configuration fields alone. -/
theorem runLoop_shape (sched : ℕ → Bool) :
    ∀ (n i : ℕ) (ti : Timerit) (c : ClockState),
      (Timerit.runLoop sched i n ti c).1.num = ti.num
      ∧ (Timerit.runLoop sched i n ti c).1.bestof = ti.bestof
      ∧ (Timerit.runLoop sched i n ti c).1.times.length
          = ti.times.length + n := by
  intro n
  induction n with
  | zero =>
    intro i ti c
    exact ⟨rfl, rfl, rfl⟩
  | succ n ih =>
    intro i ti c
    obtain ⟨h1, h2, h3, h4⟩ := iterOnce_shape ti (sched i) c
    have hstep :
        Timerit.runLoop sched i (n + 1) ti c
          = Timerit.runLoop sched (i + 1) n (ti.iterOnce (sched i) c).1
              (ti.iterOnce (sched i) c).2 := rfl
    obtain ⟨g1, g2, g3⟩ :=
      ih (i + 1) (ti.iterOnce (sched i) c).1 (ti.iterOnce (sched i) c).2
    rw [hstep]
    refine ⟨g1.trans h1, g2.trans h2, ?_⟩
    rw [g3, h4]
    omega

/-- Unfolding `runIter`: the loop body never raises, so the run reduces to
the post-loop consistency check; the collector is restored afterwards
(`gcFinal = gc`) and the loop ran with the collector off
(`gcDuring = false`). -/
theorem runIter_eq (ti : Timerit) (sched : ℕ → Bool) (c : ClockState)
    (gc : Bool) :
    ti.runIter sched c gc
      = if (Timerit.runLoop sched 0 ti.iterBegin.num ti.iterBegin c).1.times.length
            ≠ (Timerit.runLoop sched 0 ti.iterBegin.num ti.iterBegin c).1.num then
          { result := Except.error TimeritError.assertionError,
            clock := (Timerit.runLoop sched 0 ti.iterBegin.num ti.iterBegin c).2,
            gcFinal := gc, gcDuring := false }
        else
          { result :=
              Except.ok (Timerit.runLoop sched 0 ti.iterBegin.num ti.iterBegin c).1,
            clock := (Timerit.runLoop sched 0 ti.iterBegin.num ti.iterBegin c).2,
            gcFinal := gc, gcDuring := false } := rfl

/-- Claim C4: at the end of the iteration protocol the run fails with the
internal-consistency error exactly when the recorded sample count differs
from the trial count; when they agree the run returns the post-loop state;
the loop contributes exactly `num` samples on top of whatever was already
recorded, so a run started with an empty sample list never trips the
check. -/
theorem timerit_consistency_check (ti : Timerit) (sched : ℕ → Bool)
    (c : ClockState) (gc : Bool) :
    ((ti.runIter sched c gc).result = Except.error TimeritError.assertionError
      ↔ (Timerit.runLoop sched 0 ti.iterBegin.num ti.iterBegin c).1.times.length
          ≠ ti.num)
    ∧ ((Timerit.runLoop sched 0 ti.iterBegin.num ti.iterBegin c).1.times.length
          = ti.num →
        (ti.runIter sched c gc).result
          = Except.ok (Timerit.runLoop sched 0 ti.iterBegin.num ti.iterBegin c).1)
    ∧ (Timerit.runLoop sched 0 ti.iterBegin.num ti.iterBegin c).1.times.length
        = ti.times.length + ti.num
    ∧ (ti.times = [] →
        (ti.runIter sched c gc).result
          = Except.ok (Timerit.runLoop sched 0 ti.iterBegin.num ti.iterBegin c).1) := by
  have hnum :
      (Timerit.runLoop sched 0 ti.iterBegin.num ti.iterBegin c).1.num = ti.num :=
    (runLoop_shape sched ti.iterBegin.num 0 ti.iterBegin c).1
  have hlen :
      (Timerit.runLoop sched 0 ti.iterBegin.num ti.iterBegin c).1.times.length
        = ti.times.length + ti.num :=
    (runLoop_shape sched ti.iterBegin.num 0 ti.iterBegin c).2.2
  refine ⟨?_, ?_, hlen, ?_⟩
  · rw [runIter_eq, hnum]
    by_cases h :
        (Timerit.runLoop sched 0 ti.iterBegin.num ti.iterBegin c).1.times.length
          = ti.num <;>
      simp [h]
  · intro h
    rw [runIter_eq, hnum]
    simp [h]
  · intro h
    rw [runIter_eq, hnum]
    have h2 :
        (Timerit.runLoop sched 0 ti.iterBegin.num ti.iterBegin c).1.times.length
          = ti.num := by
      rw [hlen, h]
      simp
    simp [h2]

/-- Claim C10: starting the iteration protocol zeroes `n_loops` and
`total_time` but leaves the recorded samples alone (only `reset` clears
them); hence a session already driven to completion, rerun without `reset`,
always ends in the internal-consistency error, because the second run
appends `num` further samples to the `num` already recorded. -/
theorem timerit_rerun_without_reset_fails (ti ti1 : Timerit)
    (sched sched2 : ℕ → Bool) (c c2 : ClockState) (gc gc2 : Bool)
    (h0 : 0 < ti.num)
    (h1 : (ti.runIter sched c gc).result = Except.ok ti1) :
    ti1.iterBegin.times = ti1.times
    ∧ ti1.iterBegin.n_loops = some 0
    ∧ ti1.iterBegin.total_time = some 0
    ∧ (Timerit.reset ti1 none).times = []
    ∧ (ti1.runIter sched2 c2 gc2).result
        = Except.error TimeritError.assertionError := by
  have hnum :
      (Timerit.runLoop sched 0 ti.iterBegin.num ti.iterBegin c).1.num = ti.num :=
    (runLoop_shape sched ti.iterBegin.num 0 ti.iterBegin c).1
  have hlen :
      (Timerit.runLoop sched 0 ti.iterBegin.num ti.iterBegin c).1.times.length
        = ti.times.length + ti.num :=
    (runLoop_shape sched ti.iterBegin.num 0 ti.iterBegin c).2.2
  rw [runIter_eq] at h1
  by_cases h :
      (Timerit.runLoop sched 0 ti.iterBegin.num ti.iterBegin c).1.times.length
        ≠ (Timerit.runLoop sched 0 ti.iterBegin.num ti.iterBegin c).1.num
  · rw [if_pos h] at h1
    cases h1
  · rw [if_neg h] at h1
    push_neg at h
    have hti1 :
        (Timerit.runLoop sched 0 ti.iterBegin.num ti.iterBegin c).1 = ti1 :=
      Except.ok.inj h1
    have hlen1 : ti1.times.length = ti.num := by
      rw [← hti1]
      rw [h, hnum]
    have hnum1 : ti1.num = ti.num := by
      rw [← hti1, hnum]
    refine ⟨rfl, rfl, rfl, rfl, ?_⟩
    have hnum2 :
        (Timerit.runLoop sched2 0 ti1.iterBegin.num ti1.iterBegin c2).1.num
          = ti1.num :=
      (runLoop_shape sched2 ti1.iterBegin.num 0 ti1.iterBegin c2).1
    have hlen2 :
        (Timerit.runLoop sched2 0 ti1.iterBegin.num ti1.iterBegin c2).1.times.length
          = ti1.times.length + ti1.num :=
      (runLoop_shape sched2 ti1.iterBegin.num 0 ti1.iterBegin c2).2.2
    rw [runIter_eq, if_pos]
    rw [hnum2, hlen2, hlen1, hnum1]
    omega

/-- With a constant-increment clock (`fn k = t0 + k * d`) and a caller who
never touches the yielded foreground timer, every iteration's background
measurement is `d` (given `to_seconds = 1`): over `n` iterations the loop
appends `n` samples of `d`, adds `n * d` to the running total, counts `n`
loops, and leaves the foreground timer untouched. -/
theorem runLoop_const (d t0 : ℚ) :
    ∀ (n i j : ℕ) (ti : Timerit),
      ti.bg_timer.to_seconds = 1 →
      ti.fg_timer.elapsed < 0 →
      (Timerit.runLoop (fun _ => false) i n ti
          { fn := fun k => t0 + k * d, idx := j }).1.times
          = ti.times ++ List.replicate n d
      ∧ (Timerit.runLoop (fun _ => false) i n ti
          { fn := fun k => t0 + k * d, idx := j }).1.total_time
          = ti.total_time.map (· + (n : ℚ) * d)
      ∧ (Timerit.runLoop (fun _ => false) i n ti
          { fn := fun k => t0 + k * d, idx := j }).1.n_loops
          = ti.n_loops.map (· + n)
      ∧ (Timerit.runLoop (fun _ => false) i n ti
          { fn := fun k => t0 + k * d, idx := j }).1.num = ti.num
      ∧ (Timerit.runLoop (fun _ => false) i n ti
          { fn := fun k => t0 + k * d, idx := j }).1.bestof = ti.bestof
      ∧ (Timerit.runLoop (fun _ => false) i n ti
          { fn := fun k => t0 + k * d, idx := j }).1.fg_timer = ti.fg_timer := by
  intro n
  induction n with
  | zero =>
    intro i j ti hbg hfg
    refine ⟨?_, ?_, ?_, rfl, rfl, rfl⟩ <;> simp [Timerit.runLoop]
  | succ n ih =>
    intro i j ti hbg hfg
    have hstep :
        Timerit.runLoop (fun _ => false) i (n + 1) ti
            { fn := fun k => t0 + k * d, idx := j }
          = Timerit.runLoop (fun _ => false) (i + 1) n
              (ti.iterOnce false { fn := fun k => t0 + k * d, idx := j }).1
              (ti.iterOnce false { fn := fun k => t0 + k * d, idx := j }).2 := rfl
    have hbg_time :
        ((t0 + (j + 1 : ℕ) * d) - (t0 + (j : ℕ) * d)) * ti.bg_timer.to_seconds
          = d := by
      rw [hbg]
      push_cast
      ring
    have hfg' : ¬ (0 ≤ ti.fg_timer.elapsed) := not_le.mpr hfg
    have hiter :
        ti.iterOnce false { fn := fun k => t0 + k * d, idx := j }
          = ({ ti with
                times := ti.times ++ [d],
                total_time := ti.total_time.map (· + d),
                n_loops := ti.n_loops.map (· + 1),
                bg_timer :=
                  { raw_tstart := t0 + (j : ℕ) * d,
                    raw_elapsed := (t0 + (j + 1 : ℕ) * d) - (t0 + (j : ℕ) * d),
                    to_seconds := ti.bg_timer.to_seconds } },
              { fn := fun k => t0 + k * d, idx := j + 2 }) := by
      have helapsed :
          (Timer.mk (t0 + (j : ℕ) * d)
              ((t0 + (j + 1 : ℕ) * d) - (t0 + (j : ℕ) * d))
              ti.bg_timer.to_seconds).elapsed = d := hbg_time
      simp only [Timerit.iterOnce, Timer.tic, Timer.toc, ClockState.read,
        Bool.false_eq_true, if_false, if_neg hfg']
      rw [helapsed]
    rw [hstep, hiter]
    obtain ⟨g1, g2, g3, g4, g5, g6⟩ := ih (i + 1) (j + 2)
      ({ ti with
        times := ti.times ++ [d],
        total_time := ti.total_time.map (· + d),
        n_loops := ti.n_loops.map (· + 1),
        bg_timer :=
          { raw_tstart := t0 + (j : ℕ) * d,
            raw_elapsed := (t0 + (j + 1 : ℕ) * d) - (t0 + (j : ℕ) * d),
            to_seconds := ti.bg_timer.to_seconds } })
      hbg hfg
    refine ⟨?_, ?_, ?_, g4, g5, g6⟩
    · rw [g1]
      simp [List.replicate_succ]
    · rw [g2, Option.map_map]
      congr 1
      funext x
      simp only [Function.comp_apply]
      push_cast
      ring
    · rw [g3, Option.map_map]
      congr 1
      funext x
      simp only [Function.comp_apply]
      omega

/-- Folding `min` over copies of the accumulator is the identity. -/
theorem foldl_min_replicate (d : ℚ) :
    ∀ n : ℕ, (List.replicate n d).foldl min d = d := by
  intro n
  induction n with
  | zero => rfl
  | succ n ih =>
    rw [List.replicate_succ, List.foldl_cons, min_self]
    exact ih

/-- `listMin` of a nonempty constant list. -/
theorem listMin_replicate (d : ℚ) (n : ℕ) (hn : 0 < n) :
    listMin (List.replicate n d) = d := by
  obtain ⟨m, rfl⟩ := Nat.exists_eq_succ_of_ne_zero (Nat.pos_iff_ne_zero.mp hn)
  rw [List.replicate_succ, listMin]
  exact foldl_min_replicate d m

/-- The sum of a constant list. -/
theorem sum_const (l : List ℚ) (d : ℚ) (hall : ∀ x ∈ l, x = d) :
    l.sum = (l.length : ℚ) * d := by
  induction l with
  | nil => simp
  | cons x xs ih =>
    have hx : x = d := hall x (List.mem_cons_self x xs)
    have hxs : ∀ y ∈ xs, y = d := fun y hy => hall y (List.mem_cons_of_mem x hy)
    rw [List.sum_cons, ih hxs, hx, List.length_cons]
    push_cast
    ring

/-- The arithmetic mean of a nonempty constant list. -/
theorem mean_const (l : List ℚ) (d : ℚ) (hne : l ≠ []) (hall : ∀ x ∈ l, x = d) :
    l.sum / (l.length : ℚ) = d := by
  have hl0 : (l.length : ℚ) ≠ 0 :=
    Nat.cast_ne_zero.mpr (fun h => hne (List.eq_nil_of_length_eq_zero h))
  rw [sum_const l d hall, mul_comm, mul_div_assoc, div_self hl0, mul_one]

/-- When every raw sample equals `d`, every robust sample equals `d` and the
robust list is nonempty. -/
theorem robust_times_const (ti : Timerit) (d : ℚ) (hK : 0 < ti.bestof)
    (hne : ti.times ≠ []) (hall : ∀ x ∈ ti.times, x = d) :
    (∀ y ∈ ti.robust_times, y = d) ∧ ti.robust_times ≠ [] := by
  constructor
  · intro y hy
    obtain ⟨c, hc, rfl⟩ := List.mem_map.mp hy
    have hcne : c ≠ [] :=
      chunks_ne_nil ti.bestof hK ti.times.length ti.times le_rfl c hc
    have hmem : listMin c ∈ ti.times := by
      rw [← chunks_flatten ti.bestof hK ti.times.length ti.times le_rfl]
      exact List.mem_flatten.mpr ⟨c, hc, listMin_mem hcne⟩
    exact hall _ hmem
  · intro h
    have hlen : ti.robust_times.length = 0 := by rw [h]; rfl
    rw [Timerit.robust_times, List.length_map, chunks_length] at hlen
    have hL : 0 < ti.times.length := List.length_pos.mpr hne
    have : 1 ≤ (ti.times.length + ti.bestof - 1) / ti.bestof :=
      (Nat.le_div_iff_mul_le hK).mpr (by omega)
    omega

/-- The population standard deviation of a nonempty constant list is `0`. -/
theorem std_const (l : List ℚ) (d : ℚ) (hne : l ≠ []) (hall : ∀ x ∈ l, x = d) :
    Real.sqrt
        (((l.map (fun t : ℚ =>
            ((t : ℝ) - ((l.sum / (l.length : ℚ) : ℚ) : ℝ)) ^ 2)).sum)
          / (l.length : ℝ)) = 0 := by
  have hmean := mean_const l d hne hall
  have hzero :
      ((l.map (fun t : ℚ =>
          ((t : ℝ) - ((l.sum / (l.length : ℚ) : ℚ) : ℝ)) ^ 2)).sum) = 0 := by
    apply List.sum_eq_zero
    intro x hx
    obtain ⟨y, hy, rfl⟩ := List.mem_map.mp hx
    rw [hmean, hall y hy]
    ring
  rw [hzero, zero_div, Real.sqrt_zero]

/-- Claim C2: for positive `N` and `K ≤ N`, a full run with a clock that
advances by `d` on every call and a caller who never uses the yielded timer
completes with `n_loops = N`, `total_time = N * d`, samples `replicate N d`,
`min() = d`, `mean() = d`, and `std() = 0`. -/
theorem timerit_fixed_increment_run (N K : ℕ) (d t0 : ℚ)
    (hN : 0 < N) (hK : 0 < K) (hKN : K ≤ N) :
    ∃ tifin : Timerit,
      ((Timerit.init N none K true 1).runIter (fun _ => false)
          { fn := fun k => t0 + k * d, idx := 0 } true).result
        = Except.ok tifin
      ∧ tifin.times = List.replicate N d
      ∧ tifin.n_loops = some N
      ∧ tifin.total_time = some ((N : ℚ) * d)
      ∧ Timerit.min tifin = d
      ∧ Timerit.mean tifin = d
      ∧ Timerit.std tifin = 0 := by
  have hbg : (Timerit.init N none K true 1).iterBegin.bg_timer.to_seconds = 1 := rfl
  have hfg : (Timerit.init N none K true 1).iterBegin.fg_timer.elapsed < 0 := by
    norm_num [Timerit.init, Timerit.iterBegin, Timer.init, Timer.elapsed]
  obtain ⟨g1, g2, g3, g4, g5, g6⟩ :=
    runLoop_const d t0 N 0 0 (Timerit.init N none K true 1).iterBegin hbg hfg
  have hinum : (Timerit.init N none K true 1).iterBegin.num = N := rfl
  have hnum' :
      (Timerit.runLoop (fun _ => false) 0 N
          (Timerit.init N none K true 1).iterBegin
          { fn := fun k => t0 + k * d, idx := 0 }).1.num = N :=
    g4.trans hinum
  have hbest :
      (Timerit.runLoop (fun _ => false) 0 N
          (Timerit.init N none K true 1).iterBegin
          { fn := fun k => t0 + k * d, idx := 0 }).1.bestof = K :=
    g5.trans (rfl : (Timerit.init N none K true 1).iterBegin.bestof = K)
  have htimes :
      (Timerit.runLoop (fun _ => false) 0 N
          (Timerit.init N none K true 1).iterBegin
          { fn := fun k => t0 + k * d, idx := 0 }).1.times
        = List.replicate N d := by
    rw [g1]; rfl
  have hlen :
      (Timerit.runLoop (fun _ => false) 0 N
          (Timerit.init N none K true 1).iterBegin
          { fn := fun k => t0 + k * d, idx := 0 }).1.times.length = N := by
    rw [htimes, List.length_replicate]
  have hall : ∀ x ∈ (Timerit.runLoop (fun _ => false) 0 N
      (Timerit.init N none K true 1).iterBegin
      { fn := fun k => t0 + k * d, idx := 0 }).1.times, x = d := by
    rw [htimes]; intro x hx; exact List.eq_of_mem_replicate hx
  have hne : (Timerit.runLoop (fun _ => false) 0 N
      (Timerit.init N none K true 1).iterBegin
      { fn := fun k => t0 + k * d, idx := 0 }).1.times ≠ [] := by
    rw [htimes]
    exact List.ne_nil_of_length_pos (by rw [List.length_replicate]; omega)
  have hKb : 0 < (Timerit.runLoop (fun _ => false) 0 N
      (Timerit.init N none K true 1).iterBegin
      { fn := fun k => t0 + k * d, idx := 0 }).1.bestof := by
    rw [hbest]; exact hK
  obtain ⟨hally, hrne⟩ := robust_times_const _ d hKb hne hall
  have hmean := mean_const _ d hrne hally
  have hcond : ¬ ((Timerit.runLoop (fun _ => false) 0 N
      (Timerit.init N none K true 1).iterBegin
      { fn := fun k => t0 + k * d, idx := 0 }).1.times.length
        ≠ (Timerit.runLoop (fun _ => false) 0 N
            (Timerit.init N none K true 1).iterBegin
            { fn := fun k => t0 + k * d, idx := 0 }).1.num) := by
    simp [hlen, hnum']
  refine ⟨(Timerit.runLoop (fun _ => false) 0 N
      (Timerit.init N none K true 1).iterBegin
      { fn := fun k => t0 + k * d, idx := 0 }).1, ?_, htimes, ?_, ?_, ?_,
      hmean, ?_⟩
  · rw [runIter_eq, hinum, if_neg hcond]
  · rw [g3]
    show Option.map (fun x => x + N) (some 0) = some N
    simp
  · rw [g2]
    show Option.map (fun x => x + (N : ℚ) * d) (some 0) = some ((N : ℚ) * d)
    simp
  · rw [Timerit.min, htimes, listMin_replicate d N hN]
  · exact std_const _ d hrne hally

/-- Claim C1 (amended): in each iteration the recorded sample is the
foreground timer's elapsed exactly when that elapsed is non-negative at the
end of the iteration, and otherwise the background timer's measurement
(which is what the background timer's `elapsed` holds after its `toc`).
Using the yielded timer as a scope in the iteration forces a non-negative
elapsed (monotone clock, non-negative tick scale); not using it leaves the
foreground timer — created at session construction, not per run — exactly
as it was, so an elapsed from an earlier iteration or earlier run
persists. -/
theorem timerit_sample_resolution (ti : Timerit) (u : Bool) (c : ClockState)
    (hsec : 0 ≤ ti.fg_timer.to_seconds) (hmono : Monotone c.fn) :
    (ti.iterOnce u c).1.times
      = ti.times
        ++ [if 0 ≤ ((ti.iterOnce u c).1.fg_timer).elapsed
              then ((ti.iterOnce u c).1.fg_timer).elapsed
              else ((ti.iterOnce u c).1.bg_timer).elapsed]
    ∧ (u = false → (ti.iterOnce u c).1.fg_timer = ti.fg_timer)
    ∧ (u = true → 0 ≤ ((ti.iterOnce u c).1.fg_timer).elapsed) := by
  cases u with
  | false =>
    refine ⟨?_, fun _ => rfl, fun h => by cases h⟩
    simp [Timerit.iterOnce, Timer.tic, Timer.toc, ClockState.read, Timer.elapsed]
  | true =>
    have h1 : c.fn (c.idx + 1) ≤ c.fn (c.idx + 1 + 1) := hmono (by omega)
    have helapsed : 0 ≤ ((ti.iterOnce true c).1.fg_timer).elapsed := by
      simp [Timerit.iterOnce, Timer.tic, Timer.toc, ClockState.read,
        Timer.elapsed]
      exact mul_nonneg (by linarith) hsec
    refine ⟨?_, fun h => Bool.noConfusion h, fun _ => helapsed⟩
    simp [Timerit.iterOnce, Timer.tic, Timer.toc, ClockState.read, Timer.elapsed]

/-- Witness for the amended C1 at a concrete session, schedule and clock. -/
theorem timerit_sample_resolution_witness :
    (0 : ℚ) ≤ (Timerit.init 2 none 3 true 1).fg_timer.to_seconds
    ∧ ((Timerit.init 2 none 3 true 1).iterOnce true
          { fn := fun k => (k : ℚ), idx := 0 }).1.times
        = (Timerit.init 2 none 3 true 1).times
          ++ [if 0 ≤ (((Timerit.init 2 none 3 true 1).iterOnce true
                  { fn := fun k => (k : ℚ), idx := 0 }).1.fg_timer).elapsed
              then (((Timerit.init 2 none 3 true 1).iterOnce true
                  { fn := fun k => (k : ℚ), idx := 0 }).1.fg_timer).elapsed
              else (((Timerit.init 2 none 3 true 1).iterOnce true
                  { fn := fun k => (k : ℚ), idx := 0 }).1.bg_timer).elapsed]
    ∧ (true = true → 0 ≤ (((Timerit.init 2 none 3 true 1).iterOnce true
          { fn := fun k => (k : ℚ), idx := 0 }).1.fg_timer).elapsed) :=
  ⟨by norm_num [Timerit.init, Timer.init],
    (timerit_sample_resolution (Timerit.init 2 none 3 true 1) true
        { fn := fun k => (k : ℚ), idx := 0 }
        (by norm_num [Timerit.init, Timer.init])
        (fun a b h => Nat.cast_le.mpr h)).1,
    (timerit_sample_resolution (Timerit.init 2 none 3 true 1) true
        { fn := fun k => (k : ℚ), idx := 0 }
        (by norm_num [Timerit.init, Timer.init])
        (fun a b h => Nat.cast_le.mpr h)).2.2⟩

/-- Counterexample to C1 as stated: a run of two iterations where the caller
scopes the yielded timer only in iteration 0 (elapsed `5`), records `[5, 5]`
— iteration 1 reuses the stale foreground elapsed `5` although its
background measurement was `7`; after `reset`, a second run that never
touches the yielded timer still records `[5, 5]` (background measurements
`3`), because the foreground timer is created once at construction with the
session, not freshly per run. -/
theorem timerit_sample_fallback_counterexample :
    (((Timerit.init 2 none 3 true 1).runIter (fun i => i == 0)
        { fn := fun k => ([0, 1, 6, 7, 10, 17] : List ℚ).getD k 0, idx := 0 }
        true).result.toOption.map
      (fun t => (t.times, t.bg_timer.elapsed, t.fg_timer.elapsed)))
      = some ([5, 5], 7, 5)
    ∧ ((fun (i : ℕ) => i == 0) 1) = false
    ∧ (5 : ℚ) ≠ 7
    ∧ (((Timerit.init 2 none 3 true 1).runIter (fun i => i == 0)
        { fn := fun k => ([0, 1, 6, 7, 10, 17] : List ℚ).getD k 0, idx := 0 }
        true).result.toOption.map
      (fun t =>
        (((t.reset none).runIter (fun _ => false)
            { fn := fun k => (3 : ℚ) * k, idx := 0 } true).result.toOption.map
          (fun t2 => (t2.times, t2.bg_timer.elapsed, t2.fg_timer.elapsed)))))
      = some (some ([5, 5], 3, 5))
    ∧ (5 : ℚ) ≠ 3 := by
  refine ⟨?_, by decide, by norm_num, ?_, by norm_num⟩
  · norm_num [Timerit.runIter, Timerit.runLoop, Timerit.iterOnce,
      Timerit.iterBegin, Timer.tic, Timer.toc, ClockState.read, Timer.elapsed,
      withSetGCState, SetGCState.init, SetGCState.enter, SetGCState.exitRestore,
      Timerit.init, Timer.init, List.getD, Except.toOption]
  · norm_num [Timerit.runIter, Timerit.runLoop, Timerit.iterOnce,
      Timerit.iterBegin, Timer.tic, Timer.toc, ClockState.read, Timer.elapsed,
      withSetGCState, SetGCState.init, SetGCState.enter, SetGCState.exitRestore,
      Timerit.init, Timer.init, Timerit.reset, List.getD, Except.toOption]

/-- Claim C6 (code divergence): the `disable_gc` constructor argument is
never stored or read, so the constructed session is identical for both flag
values; and every run executes its timing loop with the collector disabled
(`gcDuring = false`), even for a session constructed with
`disable_gc = False` — the collector's prior state is restored only after
the loop (`gcFinal = gc`). -/
theorem timerit_gc_disabled_regardless (num : ℕ) (label : Option String)
    (bestof : ℕ) (dgc : Bool) (ts : ℚ) (sched : ℕ → Bool) (c : ClockState)
    (gc : Bool) :
    Timerit.init num label bestof dgc ts = Timerit.init num label bestof true ts
    ∧ ((Timerit.init num label bestof false ts).runIter sched c gc).gcDuring
        = false
    ∧ ((Timerit.init num label bestof false ts).runIter sched c gc).gcFinal
        = gc := by
  refine ⟨rfl, ?_, ?_⟩
  · rw [runIter_eq]
    split <;> rfl
  · rw [runIter_eq]
    split <;> rfl

/-- Witness for C2 at `N = 3`, `K = 2`, `d = 1`, `t0 = 0`. -/
theorem timerit_fixed_increment_run_witness :
    0 < 3 ∧ 0 < 2 ∧ 2 ≤ 3
    ∧ (∃ tifin : Timerit,
        ((Timerit.init 3 none 2 true 1).runIter (fun _ => false)
            { fn := fun k => (0 : ℚ) + k * 1, idx := 0 } true).result
          = Except.ok tifin
        ∧ tifin.times = List.replicate 3 1
        ∧ tifin.n_loops = some 3
        ∧ tifin.total_time = some ((3 : ℕ) * (1 : ℚ))
        ∧ Timerit.min tifin = 1
        ∧ Timerit.mean tifin = 1
        ∧ Timerit.std tifin = 0) :=
  ⟨by norm_num, by norm_num, by norm_num,
    timerit_fixed_increment_run 3 2 1 0 (by norm_num) (by norm_num) (by norm_num)⟩

/-- Witness for C3 at a concrete completed session with raw samples
`[3, 1, 2]` and `bestof = 2`. -/
theorem timerit_statistics_spec_witness :
    0 < (2 : ℕ) ∧ ([3, 1, 2] : List ℚ) ≠ []
    ∧ (let ti : Timerit :=
        { num := 3, label := none, bestof := 2, times := [3, 1, 2],
          total_time := some 6, n_loops := some 3,
          bg_timer := Timer.init 1, fg_timer := Timer.init 1 }
      (Timerit.min ti ∈ ti.times ∧ ∀ x ∈ ti.times, Timerit.min ti ≤ x)
      ∧ Timerit.mean ti = arithMean ti.robust_times
      ∧ Timerit.std ti = Real.sqrt (popVariance ti.robust_times)
      ∧ ti.robust_times = (_chunks ti.times ti.bestof).map listMin
      ∧ (_chunks ti.times ti.bestof).flatten = ti.times
      ∧ ti.robust_times.length = ⌈(ti.times.length : ℚ) / (ti.bestof : ℚ)⌉₊
      ∧ ∀ c ∈ _chunks ti.times ti.bestof, ∀ x ∈ c, listMin c ≤ x) :=
  ⟨by norm_num, by simp,
    timerit_statistics_spec
      { num := 3, label := none, bestof := 2, times := [3, 1, 2],
        total_time := some 6, n_loops := some 3,
        bg_timer := Timer.init 1, fg_timer := Timer.init 1 }
      (by norm_num) (by simp)⟩

/-- Witness for C4 at a concrete one-trial session. -/
theorem timerit_consistency_check_witness :
    (((Timerit.init 1 none 3 true 1).runIter (fun _ => false)
        { fn := fun _ => 0, idx := 0 } true).result
      = Except.error TimeritError.assertionError
        ↔ (Timerit.runLoop (fun _ => false) 0
            (Timerit.init 1 none 3 true 1).iterBegin.num
            (Timerit.init 1 none 3 true 1).iterBegin
            { fn := fun _ => 0, idx := 0 }).1.times.length
          ≠ (Timerit.init 1 none 3 true 1).num)
    ∧ ((Timerit.runLoop (fun _ => false) 0
            (Timerit.init 1 none 3 true 1).iterBegin.num
            (Timerit.init 1 none 3 true 1).iterBegin
            { fn := fun _ => 0, idx := 0 }).1.times.length
          = (Timerit.init 1 none 3 true 1).num →
        ((Timerit.init 1 none 3 true 1).runIter (fun _ => false)
            { fn := fun _ => 0, idx := 0 } true).result
          = Except.ok (Timerit.runLoop (fun _ => false) 0
              (Timerit.init 1 none 3 true 1).iterBegin.num
              (Timerit.init 1 none 3 true 1).iterBegin
              { fn := fun _ => 0, idx := 0 }).1)
    ∧ (Timerit.runLoop (fun _ => false) 0
          (Timerit.init 1 none 3 true 1).iterBegin.num
          (Timerit.init 1 none 3 true 1).iterBegin
          { fn := fun _ => 0, idx := 0 }).1.times.length
        = (Timerit.init 1 none 3 true 1).times.length
          + (Timerit.init 1 none 3 true 1).num
    ∧ ((Timerit.init 1 none 3 true 1).times = [] →
        ((Timerit.init 1 none 3 true 1).runIter (fun _ => false)
            { fn := fun _ => 0, idx := 0 } true).result
          = Except.ok (Timerit.runLoop (fun _ => false) 0
              (Timerit.init 1 none 3 true 1).iterBegin.num
              (Timerit.init 1 none 3 true 1).iterBegin
              { fn := fun _ => 0, idx := 0 }).1) :=
  timerit_consistency_check (Timerit.init 1 none 3 true 1) (fun _ => false)
    { fn := fun _ => 0, idx := 0 } true

/-- Witness for C10: a one-trial session driven to completion once, then
driven again without reset — the second run fails the consistency check. -/
theorem timerit_rerun_without_reset_fails_witness :
    0 < (Timerit.init 1 none 3 true 1).num
    ∧ (let ti1 : Timerit :=
        { num := 1, label := none, bestof := 3, times := [0],
          total_time := some 0, n_loops := some 1,
          bg_timer := { raw_tstart := 0, raw_elapsed := 0, to_seconds := 1 },
          fg_timer := { raw_tstart := -1, raw_elapsed := -1, to_seconds := 1 } }
      ((Timerit.init 1 none 3 true 1).runIter (fun _ => false)
          { fn := fun _ => 0, idx := 0 } true).result = Except.ok ti1
      ∧ ti1.iterBegin.times = ti1.times
      ∧ ti1.iterBegin.n_loops = some 0
      ∧ ti1.iterBegin.total_time = some 0
      ∧ (ti1.reset none).times = []
      ∧ (ti1.runIter (fun _ => false)
          { fn := fun _ => 0, idx := 0 } true).result
        = Except.error TimeritError.assertionError) := by
  constructor
  · norm_num [Timerit.init]
  · have hrun : ((Timerit.init 1 none 3 true 1).runIter (fun _ => false)
        { fn := fun _ => 0, idx := 0 } true).result
      = Except.ok
          { num := 1, label := none, bestof := 3, times := [0],
            total_time := some 0, n_loops := some 1,
            bg_timer := { raw_tstart := 0, raw_elapsed := 0, to_seconds := 1 },
            fg_timer := { raw_tstart := -1, raw_elapsed := -1, to_seconds := 1 } } := by
      norm_num [Timerit.runIter, Timerit.runLoop, Timerit.iterOnce,
        Timerit.iterBegin, Timer.tic, Timer.toc, ClockState.read, Timer.elapsed,
        withSetGCState, SetGCState.init, SetGCState.enter, SetGCState.exitRestore,
        Timerit.init, Timer.init]
    exact ⟨hrun,
      timerit_rerun_without_reset_fails _ _ _ _ _ _ _ _
        (by norm_num [Timerit.init]) hrun⟩
